import Mathlib

/-!
Verification of the icloud-photos-backup engine against its specification.

The Python sources are shallowly embedded: each definition below mirrors one
function of the repository (file and line references in the doc comments).
External capabilities (ISO-date parsing, the remote photo iterator, the
filesystem) appear as explicit parameters or as event streams fed to the
embedded main loops.
-/

set_option maxRecDepth 100000

namespace ICloudBackup

/-! ## Candidate Selector (src/delete_by_criteria.py)

Index metadata records carry exactly the fields captured by
`smart_download.py` lines 390-400 / `build_icloud_index.py` lines 121-130
that the selector reads: `item_type`, `created` (ISO string or null) and
`size` (bytes or null).  Note: the captured schema has NO duration field. -/

structure Meta where
  item_type : Option String
  created : Option String
  size : Option Int
deriving Repr, DecidableEq

/-- One entry of the `rules` list of the criteria configuration
(src/delete_by_criteria.py lines 29-43). -/
inductive Rule where
  | age_and_size (min_age_years : ℚ) (min_size_mb : ℚ)
  | age_and_duration (min_age_years : ℚ) (max_duration_sec : ℚ)
deriving Repr, DecidableEq

structure KindCriteria where
  enabled : Bool
  rules : List Rule
deriving Repr, DecidableEq

structure Criteria where
  photos : KindCriteria
  videos : KindCriteria
deriving Repr, DecidableEq

/-- `DEFAULT_CRITERIA` (src/delete_by_criteria.py lines 29-43). -/
def DEFAULT_CRITERIA : Criteria :=
  { photos := { enabled := true, rules := [] }
    videos := { enabled := true,
                rules := [Rule.age_and_size 2 100, Rule.age_and_duration 1 5] } }

/-- `get_file_age_years` (src/delete_by_criteria.py lines 80-89).
Datetime parsing is an external stdlib capability, passed in as
`parse : String → Option ℤ` returning the parsed date as a day number;
`now` is the current wall-clock day number.  Python returns `None` for a
missing (`None` or empty, both falsy) string and for a parse failure,
else `age_days / 365.25` as a float, embedded as the exact rational
`(4 * age_days) / 1461 = age_days / 365.25` (`Rat.divInt` is rational
division with an integer divisor, kept kernel-computable). -/
def get_file_age_years (parse : String → Option ℤ) (now : ℤ)
    (date_str : Option String) : Option ℚ :=
  match date_str with
  | none => none
  | some s =>
      if s = "" then none
      else
        match parse s with
        | none => none
        | some d => some (Rat.divInt (4 * (now - d)) 1461)

/-- Python truthiness of an optional float: `None` and `0.0` are falsy
(the guard `if age_years and ...` in `matches_criteria`). -/
def pyTruthy : Option ℚ → Bool
  | none => false
  | some x => x ≠ 0

/-- Structured content of the reason string
`f"Old large video: {age_years:.1f}yr, {size_mb:.1f}MB"`
(src/delete_by_criteria.py line 102). -/
inductive Reason where
  | oldLargeVideo (age_years : ℚ) (size_mb : ℚ)
deriving Repr, DecidableEq

/-- The `for rule in criteria['videos']['rules']` loop of `matches_criteria`
(src/delete_by_criteria.py lines 96-108).  An `age_and_duration` rule hits
the `continue` on line 108 ("Duration not in index ... skip duration-based
rules") and so never matches. -/
def matchVideoRules (parse : String → Option ℤ) (now : ℤ) (meta : Meta) :
    List Rule → Bool × Option Reason
  | [] => (false, none)
  | Rule.age_and_size min_age min_size :: rest =>
      let age_years := get_file_age_years parse now meta.created
      let size_mb : ℚ := Rat.divInt (meta.size.getD 0) (1024 * 1024)
      if pyTruthy age_years ∧ age_years.getD 0 ≥ min_age ∧ size_mb ≥ min_size then
        (true, some (Reason.oldLargeVideo (age_years.getD 0) size_mb))
      else
        matchVideoRules parse now meta rest
  | Rule.age_and_duration _ _ :: rest =>
      matchVideoRules parse now meta rest

/-- `matches_criteria` (src/delete_by_criteria.py lines 91-115).
The photo branch iterates rules with a `pass` body (lines 110-113), so it
always falls through to `return False, None`. -/
def matches_criteria (parse : String → Option ℤ) (now : ℤ) (meta : Meta)
    (criteria : Criteria) : Bool × Option Reason :=
  if meta.item_type = some "movie" ∧ criteria.videos.enabled then
    matchVideoRules parse now meta criteria.videos.rules
  else
    (false, none)

/-! Concrete instantiation of the spec's rule-evaluation example
(spec section 8): three video records A, B, C.  Ages are realised as day
counts: parsing returns a day number and `now = 0`, so a record created
`k` days ago parses to `-k`.  A: 1096 days (3.0 yr) and 200 MB;
B: 183 days (0.5 yr) and 50 MB; C: 731 days (2.0 yr) and 90 MB.
The index schema has no duration field, so C's 3-second duration cannot
appear in its record. -/

def exampleParse : String → Option ℤ := fun s =>
  if s = "dateA" then some (-1096)
  else if s = "dateB" then some (-183)
  else if s = "dateC" then some (-731)
  else none

def metaA : Meta := { item_type := some "movie", created := some "dateA", size := some 209715200 }
def metaB : Meta := { item_type := some "movie", created := some "dateB", size := some 52428800 }
def metaC : Meta := { item_type := some "movie", created := some "dateC", size := some 94371840 }

/-! ## Download retry (src/smart_download.py lines 40-43, 101-116) -/

def RETRY_ATTEMPTS : ℕ := 3
def RETRY_DELAY : ℕ := 5
def SAVE_PROGRESS_EVERY : ℕ := 50

/-- The `for attempt in range(max_retries)` loop of
`download_photo_with_retry` (src/smart_download.py lines 103-116).
`att i` tells whether the underlying download succeeds on attempt `i`
(an external capability).  The first argument is the number of loop
iterations still to run (initially `max_retries`, so the recursion is
structural); `attempt` is Python's loop variable.  Returns (success,
attempts made, the sleeps performed between attempts, in seconds). -/
def retryLoop (att : ℕ → Bool) (max_retries : ℕ) :
    ℕ → ℕ → Bool × ℕ × List ℕ
  | 0, attempt => (false, attempt, [])
  | remaining + 1, attempt =>
      if att attempt then (true, attempt + 1, [])
      else if attempt < max_retries - 1 then
        let r := retryLoop att max_retries remaining (attempt + 1)
        (r.1, r.2.1, RETRY_DELAY :: r.2.2)
      else (false, attempt + 1, [])

/-- `download_photo_with_retry` (src/smart_download.py lines 101-116),
called with the default `max_retries=RETRY_ATTEMPTS`. -/
def download_photo_with_retry (att : ℕ → Bool) : Bool × ℕ × List ℕ :=
  retryLoop att RETRY_ATTEMPTS RETRY_ATTEMPTS 0

/-! ## The smart-download main loop (src/smart_download.py `main`)

The loop is embedded as a transition function over an explicit event
stream.  Each event is one behaviour of the external remote iterator at
one loop iteration:
* `item f date hasCreated validOnDisk att` — the iterator yields an asset
  with filename `f`; `date` is the date used by the `--recent` filter
  (lines 344-374); `hasCreated` tells whether `photo.created` is non-null
  (a null one raises at line 409-410 and lands in the `except Exception`
  at line 501); `validOnDisk` is the result of `file_exists_and_valid`
  (line 418); `att` gives the download-attempt outcomes (line 426).
* `fieldError` — reading the item's fields raises (caught at line 501:
  `failed += 1; continue`).
* `transportError` — the iterator itself raises a non-interrupt
  exception, caught by the outer `except Exception` (lines 556-561):
  `save_progress(progress)` with the dict as-is, then exit.
* `interruptAdvance` — KeyboardInterrupt raised while `photos_album`'s
  iterator advances (`for photo in photos_album`, line 332).  The inner
  `except KeyboardInterrupt` (line 480) is inside the loop body and the
  outer handler (line 556) catches only `Exception`, which
  KeyboardInterrupt does not subclass, so the interrupt propagates and
  the process exits with NO save.
* `interruptProcess` — KeyboardInterrupt raised inside the per-item
  `try` body, caught at lines 480-499: save progress and index, exit. -/

inductive SmartEv where
  | item (f : String) (date : Option ℤ) (hasCreated : Bool) (validOnDisk : Bool)
      (att : ℕ → Bool)
  | fieldError
  | transportError
  | interruptAdvance
  | interruptProcess

/-- Persisted `download_progress.json` (src/smart_download.py lines 53-72).
`failed_files` keeps only the filename of each appended entry; the
`index`/`timestamp` fields of the appended dicts are never read. -/
structure Progress where
  downloaded_files : List String
  failed_files : List String
  last_index : ℕ
  stat_downloaded : ℕ
  stat_skipped : ℕ
  stat_failed : ℕ
deriving Repr, DecidableEq

def emptyProgress : Progress :=
  { downloaded_files := [], failed_files := [], last_index := 0,
    stat_downloaded := 0, stat_skipped := 0, stat_failed := 0 }

/-- Python `set.add`, determinised as append-if-absent. -/
def setAdd (l : List String) (f : String) : List String :=
  if f ∈ l then l else l ++ [f]

/-- In-memory state of one invocation of `main`.  `prog` is the live
`progress` dict (its `failed_files` list is appended in place at
line 454; the other fields are only refreshed at save points);
`persisted`/`persistedIndex` are the current on-disk contents; `saves`
records every `save_progress` call's written snapshot; `newly` and
`validAdds` are ghost observers (filenames first added to `seen`, and
count of additions to `downloadedSet` by the valid-on-disk branch). -/
structure SmartSt where
  prog : Progress
  persisted : Progress
  persistedIndex : List String
  saves : List Progress
  downloadedSet : List String
  seen : List String
  indexed : List String
  newly : List String
  validAdds : ℕ
  photoNum : ℕ
  startIdx : ℕ
  downloaded : ℕ
  skipped : ℕ
  failed : ℕ
  consecutiveDuplicates : ℕ
  skippedByDate : ℕ
  consecutiveOld : ℕ

inductive ExitKind where
  | normal
  | intProcess
  | intAdvance
  | errored
deriving Repr, DecidableEq

structure SmartOut where
  st : SmartSt
  exitKind : ExitKind

def MAX_CONSECUTIVE_DUPLICATES : ℕ := 500
def MAX_CONSECUTIVE_OLD : ℕ := 100

/-- The progress snapshot written at checkpoints, at the interrupt
handler and at the final save (src/smart_download.py lines 461-470,
483-490, 507-514): all fields refreshed from the loop's locals; the live
`failed_files` list is carried over. -/
def snapshotProg (st : SmartSt) : Progress :=
  { downloaded_files := st.downloadedSet
    failed_files := st.prog.failed_files
    last_index := st.photoNum
    stat_downloaded := st.downloaded
    stat_skipped := st.skipped
    stat_failed := st.failed }

/-- `save_progress(p)`: overwrite the persisted file with `p` and make
`p` the current dict contents. -/
def doSaveProgress (st : SmartSt) (p : Progress) : SmartSt :=
  { st with prog := p, persisted := p, saves := st.saves ++ [p] }

/-- `save_index(...)`: the persisted index's filename list becomes the
in-memory one. -/
def doSaveIndex (st : SmartSt) : SmartSt :=
  { st with persistedIndex := st.indexed }

/-- The final save after the loop (src/smart_download.py lines 506-530):
progress snapshot plus index. -/
def smartFinal (st : SmartSt) : SmartOut :=
  let st := doSaveProgress st (snapshotProg st)
  { st := doSaveIndex st, exitKind := ExitKind.normal }

/-- Result of one loop iteration: continue with the next item (`next`),
`break` out of the for-loop (`brk`, after which the final save runs), or
exit the process immediately (`exit`). -/
inductive StepRes where
  | next (st : SmartSt)
  | brk (st : SmartSt)
  | exit (out : SmartOut)

/-- Lines 377-478 of src/smart_download.py: cycle detection, metadata
capture, skip logic, download with retry, periodic checkpoint. -/
def smartBody (st : SmartSt) (f : String)
    (hasCreated validOnDisk : Bool) (att : ℕ → Bool) : StepRes :=
  if f ∈ st.seen then
    let st := { st with consecutiveDuplicates := st.consecutiveDuplicates + 1 }
    if st.consecutiveDuplicates > MAX_CONSECUTIVE_DUPLICATES then StepRes.brk st
    else StepRes.next st
  else
    let st := { st with seen := st.seen ++ [f], indexed := setAdd st.indexed f,
                        newly := st.newly ++ [f], consecutiveDuplicates := 0 }
    if f ∈ st.downloadedSet then
      StepRes.next { st with skipped := st.skipped + 1 }
    else if hasCreated = false then
      StepRes.next { st with failed := st.failed + 1 }
    else if validOnDisk then
      StepRes.next
        { st with skipped := st.skipped + 1,
                  downloadedSet := setAdd st.downloadedSet f,
                  validAdds := st.validAdds + 1 }
    else
      let st :=
        if (download_photo_with_retry att).1 then
          { st with downloaded := st.downloaded + 1,
                    downloadedSet := setAdd st.downloadedSet f }
        else
          { st with failed := st.failed + 1,
                    prog := { st.prog with
                                failed_files := st.prog.failed_files ++ [f] } }
      let st :=
        if st.photoNum % SAVE_PROGRESS_EVERY = 0 then
          doSaveIndex (doSaveProgress st (snapshotProg st))
        else st
      StepRes.next st

/-- One iteration of the `for photo in photos_album` loop
(src/smart_download.py lines 332-504). -/
def smartStep (cutoff : Option ℤ) (st : SmartSt) : SmartEv → StepRes
  | SmartEv.interruptAdvance =>
      StepRes.exit { st := st, exitKind := ExitKind.intAdvance }
  | SmartEv.transportError =>
      StepRes.exit { st := doSaveProgress st st.prog, exitKind := ExitKind.errored }
  | SmartEv.interruptProcess =>
      let st := { st with photoNum := st.photoNum + 1 }
      let st := doSaveProgress st (snapshotProg st)
      StepRes.exit { st := doSaveIndex st, exitKind := ExitKind.intProcess }
  | SmartEv.fieldError =>
      let st := { st with photoNum := st.photoNum + 1 }
      if st.photoNum ≤ st.startIdx then StepRes.next st
      else StepRes.next { st with failed := st.failed + 1 }
  | SmartEv.item f date hasCreated validOnDisk att =>
      let st := { st with photoNum := st.photoNum + 1 }
      if st.photoNum ≤ st.startIdx then StepRes.next st
      else
        match cutoff, date with
        | some c, some d =>
            if d < c then
              let st := { st with skippedByDate := st.skippedByDate + 1,
                                  consecutiveOld := st.consecutiveOld + 1 }
              if st.consecutiveOld ≥ MAX_CONSECUTIVE_OLD then StepRes.brk st
              else StepRes.next st
            else
              smartBody { st with consecutiveOld := 0 } f hasCreated validOnDisk att
        | some _, none =>
            smartBody { st with consecutiveOld := 0 } f hasCreated validOnDisk att
        | none, _ =>
            smartBody st f hasCreated validOnDisk att

/-- The whole loop (src/smart_download.py lines 332-504) followed by the
final save (lines 506-530). -/
def smartLoop (cutoff : Option ℤ) : SmartSt → List SmartEv → SmartOut
  | st, [] => smartFinal st
  | st, ev :: rest =>
      match smartStep cutoff st ev with
      | StepRes.next st => smartLoop cutoff st rest
      | StepRes.brk st => smartFinal st
      | StepRes.exit out => out

/-- One invocation of `main` of src/smart_download.py: initialise the
loop locals from the loaded progress and index
(lines 296-330: counters from `progress['stats']`, the downloaded set
from `progress['downloaded_files']`, the resume position from
`progress['last_index']`, and `seen_filenames`/`indexed_filenames`
seeded from the index), then run the loop over the event stream.
`cutoff` is the `--recent` cutoff date (none when the flag is absent). -/
def initSmartSt (start : Progress) (index0 : List String) : SmartSt :=
  { prog := start
    persisted := start
    persistedIndex := index0
    saves := []
    downloadedSet := start.downloaded_files.dedup
    seen := index0.dedup
    indexed := index0.dedup
    newly := []
    validAdds := 0
    photoNum := 0
    startIdx := start.last_index
    downloaded := start.stat_downloaded
    skipped := start.stat_skipped
    failed := start.stat_failed
    consecutiveDuplicates := 0
    skippedByDate := 0
    consecutiveOld := 0 }

def runSmart (start : Progress) (index0 : List String) (cutoff : Option ℤ)
    (events : List SmartEv) : SmartOut :=
  smartLoop cutoff (initSmartSt start index0) events

/-! ## Index-builder enumeration (src/archive/build_icloud_index.py)

The `for photo in photos_album` loop of its `main` (lines 100-137).
Only cycle detection is relevant here; an event is the yielded item's
filename, or `none` when reading its fields raises (caught at line 135,
which only logs and continues).  Note the loop breaks on
`consecutive_duplicates >= MAX_CONSECUTIVE_DUPLICATES` (line 112),
whereas smart_download.py line 379 breaks on strict `>`. -/

structure IndexBuildSt where
  count : ℕ
  seen : List String
  newly : List String
  consecutiveDuplicates : ℕ
deriving Repr, DecidableEq

def indexBuildLoop : IndexBuildSt → List (Option String) → IndexBuildSt
  | st, [] => st
  | st, ev :: rest =>
      let st := { st with count := st.count + 1 }
      match ev with
      | none => indexBuildLoop st rest
      | some f =>
          if f ∈ st.seen then
            let st := { st with consecutiveDuplicates := st.consecutiveDuplicates + 1 }
            if st.consecutiveDuplicates ≥ MAX_CONSECUTIVE_DUPLICATES then st
            else indexBuildLoop st rest
          else
            indexBuildLoop
              { st with seen := st.seen ++ [f], newly := st.newly ++ [f],
                        consecutiveDuplicates := 0 } rest

def indexBuildRun (events : List (Option String)) : IndexBuildSt :=
  indexBuildLoop { count := 0, seen := [], newly := [], consecutiveDuplicates := 0 } events

/-! ## Fast deleter (src/icloud_delete_fast.py)

`delete_progress_fast.json` (lines 51-69) and the `main` flow: candidate
filtering (line 166), the index-guided search pass (lines 210-238) and
the batched deletion (lines 254-315).  The same batching/bookkeeping
code appears in src/delete_by_criteria.py lines 362-421, with its
remaining-candidate filter at lines 296-297. -/

def BATCH_SIZE : ℕ := 10
def MAX_SEARCH_PHOTOS : ℕ := 15000

structure DelProgress where
  deleted_files : List String
  failed_files : List String
  stat_deleted : ℕ
  stat_failed : ℕ
  stat_skipped : ℕ
deriving Repr, DecidableEq

def emptyDelProgress : DelProgress :=
  { deleted_files := [], failed_files := [], stat_deleted := 0,
    stat_failed := 0, stat_skipped := 0 }

/-- `remaining_filenames = files_in_index - deleted_set - failed_set`
(src/icloud_delete_fast.py line 166); identically, delete_by_criteria.py
lines 296-297 keep a candidate `f` only
`if f not in deleted_set and f not in failed_set`. -/
def remaining_filenames (files_in_index deleted failed : List String) :
    List String :=
  files_in_index.filter (fun f => f ∉ deleted ∧ f ∉ failed)

/-- The search pass (src/icloud_delete_fast.py lines 210-238; identical
shape at src/delete_by_criteria.py lines 326-349).  Each event is the
yielded item's filename, or `none` when `photo.filename` raises — in
which case `except Exception: continue` (line 230-231) jumps to the next
iteration, skipping the `count >= MAX_SEARCH_PHOTOS` check on line 234.
Returns the matched filenames (the keys of `photo_map`, in insertion
order) and the final `count`. -/
def searchLoop (remaining : List String) :
    ℕ → List String → List (Option String) → List String × ℕ
  | count, found, [] => (found, count)
  | count, found, ev :: rest =>
      let count := count + 1
      match ev with
      | none => searchLoop remaining count found rest
      | some f =>
          let found := if f ∈ remaining ∧ f ∉ found then found ++ [f] else found
          if found.length = remaining.length then (found, count)
          else if count ≥ MAX_SEARCH_PHOTOS then (found, count)
          else searchLoop remaining count found rest

def searchRun (remaining : List String) (events : List (Option String)) :
    List String × ℕ :=
  searchLoop remaining 0 [] events

/-- Trace of externally visible progress-store interactions of one
deletion run: a batch flush of a given size, or a `save_progress` call. -/
inductive DelEv where
  | flush (size : ℕ)
  | save
deriving Repr, DecidableEq

structure DelSt where
  deletedSet : List String
  failedSet : List String
  deleted : ℕ
  failed : ℕ
  skipped : ℕ
  batch : List String
  attempted : List String
  trace : List DelEv
  saves : List DelProgress
  persisted : DelProgress
deriving Repr, DecidableEq

/-- The snapshot written by every `save_progress(progress)` of the
deletion scripts (src/icloud_delete_fast.py lines 282-289 and 307-315). -/
def delSnapshot (st : DelSt) : DelProgress :=
  { deleted_files := st.deletedSet
    failed_files := st.failedSet
    stat_deleted := st.deleted
    stat_failed := st.failed
    stat_skipped := st.skipped }

def delSave (st : DelSt) : DelSt :=
  let p := delSnapshot st
  { st with trace := st.trace ++ [DelEv.save], saves := st.saves ++ [p],
            persisted := p }

/-- The `for fname, p in batch` body (src/icloud_delete_fast.py
lines 270-279 and 296-305): try the delete, record the outcome.
`del f` is the external delete capability's outcome for `f`. -/
def runBatch (del : String → Bool) : List String → DelSt → DelSt
  | [], st => st
  | f :: fs, st =>
      let st := { st with attempted := st.attempted ++ [f] }
      let st :=
        if del f then
          { st with deleted := st.deleted + 1, deletedSet := setAdd st.deletedSet f }
        else
          { st with failed := st.failed + 1, failedSet := setAdd st.failedSet f }
      runBatch del fs st

/-- The batched deletion loop over `remaining_filenames`
(src/icloud_delete_fast.py lines 258-315): skip filenames the search did
not match, accumulate batches of `BATCH_SIZE`, flush each full batch and
save progress after it; after the loop flush the leftover batch, then
always perform the final save. -/
def deleteLoop (found : List String) (del : String → Bool) :
    List String → DelSt → DelSt
  | [], st =>
      let st :=
        if st.batch = [] then st
        else
          let st := { st with trace := st.trace ++ [DelEv.flush st.batch.length] }
          let st := runBatch del st.batch st
          { st with batch := [] }
      delSave st
  | f :: fs, st =>
      if f ∉ found then
        deleteLoop found del fs { st with skipped := st.skipped + 1 }
      else
        let st := { st with batch := st.batch ++ [f] }
        if st.batch.length ≥ BATCH_SIZE then
          let st1 := { st with trace := st.trace ++ [DelEv.flush st.batch.length] }
          let st2 := runBatch del st.batch st1
          let st3 := delSave { st2 with batch := [] }
          deleteLoop found del fs st3
        else
          deleteLoop found del fs st

/-- One deletion pass: initialise from the loaded progress
(src/icloud_delete_fast.py lines 162-164 and 254-256) and run the
batched loop. -/
def deleteRun (p : DelProgress) (remaining found : List String)
    (del : String → Bool) : DelSt :=
  deleteLoop found del remaining
    { deletedSet := p.deleted_files.dedup
      failedSet := p.failed_files.dedup
      deleted := p.stat_deleted
      failed := p.stat_failed
      skipped := p.stat_skipped
      batch := []
      attempted := []
      trace := []
      saves := []
      persisted := p }

/-! ## Helper lemmas about the deletion loop -/

theorem runBatch_attempted (del : String → Bool) (l : List String) (st : DelSt) :
    (runBatch del l st).attempted = st.attempted ++ l := by
  induction l generalizing st with
  | nil => simp [runBatch]
  | cons f fs ih =>
      simp only [runBatch]
      split
      · rw [ih]; simp
      · rw [ih]; simp

theorem runBatch_batch (del : String → Bool) (l : List String) (st : DelSt) :
    (runBatch del l st).batch = st.batch := by
  induction l generalizing st with
  | nil => simp [runBatch]
  | cons f fs ih =>
      simp only [runBatch]
      split <;> rw [ih]

theorem runBatch_trace (del : String → Bool) (l : List String) (st : DelSt) :
    (runBatch del l st).trace = st.trace := by
  induction l generalizing st with
  | nil => simp [runBatch]
  | cons f fs ih =>
      simp only [runBatch]
      split <;> rw [ih]

theorem runBatch_skipped (del : String → Bool) (l : List String) (st : DelSt) :
    (runBatch del l st).skipped = st.skipped := by
  induction l generalizing st with
  | nil => simp [runBatch]
  | cons f fs ih =>
      simp only [runBatch]
      split <;> rw [ih]

/-- Every filename the deletion loop ever hands to the delete capability
is a matched element of the pending list: the final `attempted`
bookkeeping equals the pending list filtered by search success, after
the still-unflushed entries of `batch`. -/
theorem deleteLoop_attempted (found : List String) (del : String → Bool)
    (items : List String) (st : DelSt) :
    (deleteLoop found del items st).attempted =
      st.attempted ++ st.batch ++ items.filter (fun f => f ∈ found) := by
  induction items generalizing st with
  | nil =>
      simp only [deleteLoop]
      split
      · rename_i h
        simp [delSave, h]
      · simp [delSave, runBatch_attempted]
  | cons f fs ih =>
      simp only [deleteLoop]
      split
      · rename_i h
        rw [ih]
        simp [List.filter_cons, h]
      · rename_i h
        rw [not_not] at h
        by_cases hb : (st.batch ++ [f]).length ≥ BATCH_SIZE
        · simp only [hb, if_pos, List.filter_cons, h, if_true]
          rw [ih]
          simp [delSave, runBatch_attempted, runBatch_batch]
        · simp only [hb, if_neg, not_false_iff, List.filter_cons, h, if_true]
          rw [ih]
          simp


/-- The `skipped` tally counts exactly the pending filenames the search
pass did not match. -/
theorem deleteLoop_skipped (found : List String) (del : String → Bool)
    (items : List String) (st : DelSt) :
    (deleteLoop found del items st).skipped =
      st.skipped + (items.filter (fun f => f ∉ found)).length := by
  induction items generalizing st with
  | nil =>
      simp only [deleteLoop]
      split
      · simp [delSave]
      · simp [delSave, runBatch_skipped]
  | cons f fs ih =>
      simp only [deleteLoop]
      split
      · rename_i h
        rw [ih]
        simp only [List.filter_cons, h]
        simp [Nat.add_comm, Nat.add_assoc, Nat.add_left_comm]
      · rename_i h
        by_cases hb : (st.batch ++ [f]).length ≥ BATCH_SIZE
        · simp only [hb, if_pos, List.filter_cons, h]
          rw [ih]
          simp [delSave, runBatch_skipped, h]
        · simp only [hb, if_neg, not_false_iff, List.filter_cons, h]
          rw [ih]
          simp [h]

/-- The flush/save trace of the deletion loop when every pending
filename was matched, as a function of the current batch fill and the
number of pending items (helper abstraction for the proof only). -/
def batchTrace : ℕ → ℕ → List DelEv
  | b, 0 => (if b = 0 then [] else [DelEv.flush b]) ++ [DelEv.save]
  | b, n + 1 =>
      if b + 1 ≥ BATCH_SIZE then
        DelEv.flush (b + 1) :: DelEv.save :: batchTrace 0 n
      else batchTrace (b + 1) n

theorem deleteLoop_trace (found : List String) (del : String → Bool)
    (items : List String) (st : DelSt) (hall : ∀ f ∈ items, f ∈ found) :
    (deleteLoop found del items st).trace =
      st.trace ++ batchTrace st.batch.length items.length := by
  induction items generalizing st with
  | nil =>
      simp only [deleteLoop, batchTrace]
      split
      · rename_i h
        simp [delSave, h]
      · rename_i h
        have hlen : st.batch.length ≠ 0 := by
          simpa [List.length_eq_zero] using h
        simp [delSave, runBatch_trace, hlen]
  | cons f fs ih =>
      have hf : f ∈ found := hall f (List.mem_cons_self f fs)
      have hfs : ∀ g ∈ fs, g ∈ found := fun g hg => hall g (List.mem_cons_of_mem f hg)
      simp only [deleteLoop, hf, not_true_eq_false, if_neg, not_false_iff]
      by_cases hb : (st.batch ++ [f]).length ≥ BATCH_SIZE
      · simp only [hb, if_pos]
        rw [ih _ hfs]
        have hlen : (st.batch ++ [f]).length = st.batch.length + 1 := by simp
        simp only [delSave, runBatch_trace, runBatch_batch, hlen, List.length_cons,
          batchTrace]
        rw [if_pos (by simpa [hlen] using hb)]
        simp
      · simp only [hb, if_neg, not_false_iff]
        rw [ih _ hfs]
        have hlen : (st.batch ++ [f]).length = st.batch.length + 1 := by simp
        simp only [hlen, List.length_cons, batchTrace]
        rw [if_neg (by simpa [hlen] using hb)]

/-! ## Claim C1 -/

/-- Claim C1 counterexample: with persisted progress recording
`d.jpg` deleted and `a.jpg` failed, and candidates
`[a.jpg, b.jpg, d.jpg]` all matched by the search, a re-invocation
attempts only `b.jpg`: the previously-failed `a.jpg` is NOT attempted
again, contradicting the claim that every filename in the persisted
failed set is attempted again. -/
theorem c1_failed_not_reattempted_cex :
    (deleteRun
        { deleted_files := ["d.jpg"], failed_files := ["a.jpg"],
          stat_deleted := 1, stat_failed := 1, stat_skipped := 0 }
        (remaining_filenames ["a.jpg", "b.jpg", "d.jpg"] ["d.jpg"] ["a.jpg"])
        ["a.jpg", "b.jpg", "d.jpg"] (fun _ => true)).attempted = ["b.jpg"] := by
  decide

/-- Claim C1 (amended): a subsequent invocation with the same inputs
never re-applies a deletion already recorded in the deleted set, and
attempts exactly the candidates that are in NEITHER the deleted set NOR
the failed set (of those, the ones matched to remote handles);
previously-failed filenames are excluded rather than retried. -/
theorem c1_resume_attempts_only_unprocessed
    (files_in_index deleted failed found : List String)
    (del : String → Bool) (p : DelProgress) :
    (deleteRun p (remaining_filenames files_in_index deleted failed) found
        del).attempted =
      (remaining_filenames files_in_index deleted failed).filter
        (fun f => f ∈ found) ∧
    (∀ f ∈ deleted,
      f ∉ (deleteRun p (remaining_filenames files_in_index deleted failed)
              found del).attempted) ∧
    (∀ f ∈ failed,
      f ∉ (deleteRun p (remaining_filenames files_in_index deleted failed)
              found del).attempted) := by
  have hchar :
      (deleteRun p (remaining_filenames files_in_index deleted failed) found
          del).attempted =
        (remaining_filenames files_in_index deleted failed).filter
          (fun f => f ∈ found) := by
    unfold deleteRun
    rw [deleteLoop_attempted]
    simp
  refine ⟨hchar, ?_, ?_⟩
  · intro f hf hmem
    rw [hchar] at hmem
    have : f ∈ remaining_filenames files_in_index deleted failed :=
      List.mem_of_mem_filter hmem
    unfold remaining_filenames at this
    have := (List.mem_filter.mp this).2
    simp only [decide_eq_true_eq] at this
    exact this.1 hf
  · intro f hf hmem
    rw [hchar] at hmem
    have : f ∈ remaining_filenames files_in_index deleted failed :=
      List.mem_of_mem_filter hmem
    unfold remaining_filenames at this
    have := (List.mem_filter.mp this).2
    simp only [decide_eq_true_eq] at this
    exact this.2 hf

/-- Witness for `c1_resume_attempts_only_unprocessed` at a concrete
input. -/
theorem c1_resume_attempts_only_unprocessed_witness :
    ("d.jpg" ∈ ["d.jpg"] → True) ∧
    (deleteRun emptyDelProgress
        (remaining_filenames ["a.jpg", "b.jpg", "d.jpg"] ["d.jpg"] ["a.jpg"])
        ["a.jpg", "b.jpg", "d.jpg"] (fun _ => true)).attempted =
      (remaining_filenames ["a.jpg", "b.jpg", "d.jpg"] ["d.jpg"]
          ["a.jpg"]).filter (fun f => f ∈ ["a.jpg", "b.jpg", "d.jpg"]) ∧
    "a.jpg" ∉ (deleteRun emptyDelProgress
        (remaining_filenames ["a.jpg", "b.jpg", "d.jpg"] ["d.jpg"] ["a.jpg"])
        ["a.jpg", "b.jpg", "d.jpg"] (fun _ => true)).attempted := by
  have h := c1_resume_attempts_only_unprocessed
    ["a.jpg", "b.jpg", "d.jpg"] ["d.jpg"] ["a.jpg"]
    ["a.jpg", "b.jpg", "d.jpg"] (fun _ => true) emptyDelProgress
  exact ⟨fun _ => trivial, h.1, h.2.2 "a.jpg" (by decide)⟩

/-! ## Claim C8 -/

/-- Claim C8: for 23 pending deletion items (all matched by the search
pass), the batched deleter performs exactly three flushes of sizes 10,
10 and 3 in that order, each followed by a progress-store save. -/
theorem c8_batch_boundary (items found : List String) (del : String → Bool)
    (p : DelProgress) (hlen : items.length = 23)
    (hall : ∀ f ∈ items, f ∈ found) :
    (deleteRun p items found del).trace =
      [DelEv.flush 10, DelEv.save, DelEv.flush 10, DelEv.save,
       DelEv.flush 3, DelEv.save] := by
  unfold deleteRun
  rw [deleteLoop_trace found del items _ hall]
  simp only [hlen, List.length_nil, List.nil_append]
  decide

/-- Witness for `c8_batch_boundary` at a concrete 23-item input. -/
theorem c8_batch_boundary_witness :
    ((List.range 23).map (fun i => toString i)).length = 23 ∧
    (deleteRun emptyDelProgress ((List.range 23).map (fun i => toString i))
        ((List.range 23).map (fun i => toString i)) (fun _ => true)).trace =
      [DelEv.flush 10, DelEv.save, DelEv.flush 10, DelEv.save,
       DelEv.flush 3, DelEv.save] := by
  refine ⟨by decide, ?_⟩
  exact c8_batch_boundary _ _ (fun _ => true) emptyDelProgress (by decide)
    (fun f hf => hf)

/-! ## Claim C2 -/

/-- Claim C2 counterexample: record C (video, age 2 years, 90 MB — and
with no duration field, since the index schema captures none) is NOT
returned as a deletion candidate under the default criteria: the
`age_and_duration` rule body is the skipped `continue` at
src/delete_by_criteria.py lines 104-108, so the selector yields
`(False, None)` for C, contradicting the claimed
`C ↦ "age-and-duration"`. -/
theorem c2_short_video_not_candidate_cex :
    matches_criteria exampleParse 0 metaC DEFAULT_CRITERIA = (false, none) := by
  decide

/-- Claim C2 (amended): under the default rules, record A (age 3y,
200 MB) is returned with the age-and-size rule's reason and records B
(age 0.5y, 50 MB) and C (age 2y, 90 MB, 3 s) are excluded — C because
`age_and_duration` rules are skipped entirely (duration is not captured
in the index), as the last conjunct states in general; each record is
still evaluated against its kind's ordered rule list with the first
matching implemented rule's reason returned. -/
theorem c2_rule_evaluation_example :
    matches_criteria exampleParse 0 metaA DEFAULT_CRITERIA =
      (true, some (Reason.oldLargeVideo (Rat.divInt 4384 1461) 200)) ∧
    matches_criteria exampleParse 0 metaB DEFAULT_CRITERIA = (false, none) ∧
    matches_criteria exampleParse 0 metaC DEFAULT_CRITERIA = (false, none) ∧
    (∀ (parse : String → Option ℤ) (now : ℤ) (meta : Meta) (a d : ℚ)
        (rest : List Rule),
      matchVideoRules parse now meta (Rule.age_and_duration a d :: rest) =
        matchVideoRules parse now meta rest) := by
  refine ⟨by decide, by decide, by decide, ?_⟩
  intro parse now meta a d rest
  rfl

/-! ## Claim C9 -/

theorem get_file_age_years_eq_none (parse : String → Option ℤ) (now : ℤ)
    (created : Option String)
    (h : created = none ∨ ∀ s, created = some s → s = "" ∨ parse s = none) :
    get_file_age_years parse now created = none := by
  cases created with
  | none => rfl
  | some s =>
      rcases h with h | h
      · exact absurd h (by simp)
      · rcases h s rfl with h1 | h1
        · simp [get_file_age_years, h1]
        · by_cases hs : s = ""
          · simp [get_file_age_years, hs]
          · simp [get_file_age_years, hs, h1]

theorem matchVideoRules_of_age_none (parse : String → Option ℤ) (now : ℤ)
    (meta : Meta) (rules : List Rule)
    (hage : get_file_age_years parse now meta.created = none) :
    matchVideoRules parse now meta rules = (false, none) := by
  induction rules with
  | nil => rfl
  | cons r rest ih =>
      cases r with
      | age_and_size a s =>
          simp only [matchVideoRules, hage]
          rw [if_neg]
          · exact ih
          · simp [pyTruthy]
      | age_and_duration a d => exact ih

/-- Claim C9: a record whose creation timestamp is null (or whose string
is empty or unparseable) is never returned as a deletion candidate by
any criteria configuration: every implemented rule is age-gated and a
missing age fails the truthiness guard, so `matches_criteria` yields
`(False, None)` regardless of the record's size or kind. -/
theorem c9_missing_timestamp_never_candidate (parse : String → Option ℤ)
    (now : ℤ) (meta : Meta) (criteria : Criteria)
    (h : meta.created = none ∨
         ∀ s, meta.created = some s → s = "" ∨ parse s = none) :
    matches_criteria parse now meta criteria = (false, none) := by
  have hage : get_file_age_years parse now meta.created = none :=
    get_file_age_years_eq_none parse now meta.created h
  unfold matches_criteria
  split
  · exact matchVideoRules_of_age_none parse now meta criteria.videos.rules hage
  · rfl

/-- Witness for `c9_missing_timestamp_never_candidate`: a 1 GB,
3-year-old-looking video record with a null creation timestamp is not a
candidate. -/
theorem c9_missing_timestamp_never_candidate_witness :
    matches_criteria (fun _ => some (-1096)) 0
      { item_type := some "movie", created := none, size := some 1073741824 }
      DEFAULT_CRITERIA = (false, none) :=
  c9_missing_timestamp_never_candidate (fun _ => some (-1096)) 0
    { item_type := some "movie", created := none, size := some 1073741824 }
    DEFAULT_CRITERIA (Or.inl rfl)

/-! ## Claim C7 -/

/-- Claim C7: a download whose underlying operation fails on every
attempt is attempted exactly `RETRY_ATTEMPTS = 3` times with a fixed
5-second sleep between consecutive attempts (two sleeps), returns
failure, and the filename is recorded in the failed list and never
enters the downloaded set (shown on the persisted state of a run over
that one item). -/
theorem c7_retry_exhaustion (att : ℕ → Bool) (h : ∀ i, att i = false) :
    download_photo_with_retry att = (false, 3, [5, 5]) ∧
    (runSmart emptyProgress [] none
        [SmartEv.item "f.mov" none true false att]).st.persisted.failed_files
      = ["f.mov"] ∧
    (runSmart emptyProgress [] none
        [SmartEv.item "f.mov" none true false att]).st.persisted.downloaded_files
      = [] ∧
    (runSmart emptyProgress [] none
        [SmartEv.item "f.mov" none true false att]).st.persisted.stat_failed
      = 1 := by
  have hdl : download_photo_with_retry att = (false, 3, [5, 5]) := by
    simp [download_photo_with_retry, retryLoop, h, RETRY_ATTEMPTS, RETRY_DELAY]
  refine ⟨hdl, ?_, ?_, ?_⟩ <;>
    simp [runSmart, initSmartSt, smartLoop, smartStep, smartBody, hdl, smartFinal,
      doSaveProgress, doSaveIndex, snapshotProg, setAdd, emptyProgress,
      SAVE_PROGRESS_EVERY, MAX_CONSECUTIVE_DUPLICATES]

/-- Witness for `c7_retry_exhaustion` with the constantly-failing
download capability. -/
theorem c7_retry_exhaustion_witness :
    (∀ i : ℕ, (fun _ : ℕ => false) i = false) ∧
    download_photo_with_retry (fun _ => false) = (false, 3, [5, 5]) ∧
    (runSmart emptyProgress [] none
        [SmartEv.item "f.mov" none true false
          (fun _ => false)]).st.persisted.failed_files = ["f.mov"] :=
  ⟨fun _ => rfl, (c7_retry_exhaustion (fun _ => false) (fun _ => rfl)).1,
    (c7_retry_exhaustion (fun _ => false) (fun _ => rfl)).2.1⟩


/-! ## Claim C10 -/

/-- Passing a run of readable, non-matching items advances only the
counter, as long as the safety limit is not reached. -/
theorem searchLoop_skip_run (remaining : List String)
    (rest : List (Option String)) (x : String) (hx : x ∉ remaining) :
    ∀ (n count : ℕ) (found : List String),
      count + n < MAX_SEARCH_PHOTOS →
      found.length ≠ remaining.length →
      searchLoop remaining count found (List.replicate n (some x) ++ rest) =
        searchLoop remaining (count + n) found rest := by
  intro n
  induction n with
  | zero => intro count found _ _; simp
  | succ n ih =>
      intro count found hlt hne
      simp only [List.replicate_succ, List.cons_append, searchLoop]
      have hupd : (if x ∈ remaining ∧ x ∉ found then found ++ [x] else found)
          = found := if_neg (by simp [hx])
      rw [hupd, if_neg hne, if_neg (show ¬count + 1 ≥ MAX_SEARCH_PHOTOS by omega)]
      rw [show (List.replicate n (some x)).append rest
          = List.replicate n (some x) ++ rest from rfl]
      rw [ih (count + 1) found (by omega) hne]
      congr 1
      omega

/-- Claim C10 counterexample: a stream of 14,999 readable non-matching
items, then one item whose field read raises, then one more readable
item, makes the search pass examine 15,001 items: the
`except Exception: continue` at src/icloud_delete_fast.py lines 230-231
jumps past the `count >= MAX_SEARCH_PHOTOS` check, so the claimed
15,000 bound is exceeded. -/
theorem c10_search_limit_exceeded_cex :
    (searchRun ["q"] (List.replicate 14999 (some "x") ++
        [none, some "y"])).2 = 15001 := by
  unfold searchRun
  rw [searchLoop_skip_run ["q"] [none, some "y"] "x" (by decide) 14999 0 []
      (by decide) (by decide)]
  decide

/-- With no per-item field error in the stream, the search pass never
examines more than `MAX_SEARCH_PHOTOS` items. -/
theorem searchLoop_count_le (remaining : List String) :
    ∀ (evs : List (Option String)) (count : ℕ) (found : List String),
      (∀ e ∈ evs, e ≠ none) → count < MAX_SEARCH_PHOTOS →
      (searchLoop remaining count found evs).2 ≤ MAX_SEARCH_PHOTOS := by
  intro evs
  induction evs with
  | nil => intro count found _ hlt; simpa [searchLoop] using Nat.le_of_lt hlt
  | cons e rest ih =>
      intro count found hne hlt
      cases e with
      | none => exact absurd rfl (hne none (List.mem_cons_self _ _))
      | some f =>
          simp only [searchLoop]
          by_cases hfull :
              (if f ∈ remaining ∧ f ∉ found then found ++ [f]
                else found).length = remaining.length
          · rw [if_pos hfull]
            simp only []
            omega
          · by_cases hlim : count + 1 ≥ MAX_SEARCH_PHOTOS
            · rw [if_neg hfull, if_pos hlim]
              simp only []
              omega
            · rw [if_neg hfull, if_neg hlim]
              exact ih (count + 1) _
                (fun e he => hne e (List.mem_cons_of_mem _ he)) (by omega)

/-- The matched list stays duplicate-free and inside the candidate
set. -/
theorem searchLoop_found_inv (remaining : List String) :
    ∀ (evs : List (Option String)) (count : ℕ) (found : List String),
      found.Nodup → (∀ f ∈ found, f ∈ remaining) →
      (searchLoop remaining count found evs).1.Nodup ∧
      (∀ f ∈ (searchLoop remaining count found evs).1, f ∈ remaining) := by
  intro evs
  induction evs with
  | nil => intro count found h1 h2; exact ⟨h1, h2⟩
  | cons e rest ih =>
      intro count found h1 h2
      cases e with
      | none => exact ih (count + 1) found h1 h2
      | some f =>
          simp only [searchLoop]
          have hstep :
              (if f ∈ remaining ∧ f ∉ found then found ++ [f] else found).Nodup ∧
              (∀ g ∈ (if f ∈ remaining ∧ f ∉ found then found ++ [f] else found),
                g ∈ remaining) := by
            by_cases h : f ∈ remaining ∧ f ∉ found
            · rw [if_pos h]
              constructor
              · simpa [List.nodup_append] using ⟨h1, h.2⟩
              · intro g hg
                rcases List.mem_append.mp hg with hg | hg
                · exact h2 g hg
                · simp only [List.mem_singleton] at hg
                  exact hg ▸ h.1
            · rw [if_neg h]
              exact ⟨h1, h2⟩
          by_cases hfull :
              (if f ∈ remaining ∧ f ∉ found then found ++ [f]
                else found).length = remaining.length
          · rw [if_pos hfull]
            exact hstep
          · by_cases hlim : count + 1 ≥ MAX_SEARCH_PHOTOS
            · rw [if_neg hfull, if_pos hlim]
              exact hstep
            · rw [if_neg hfull, if_neg hlim]
              exact ih (count + 1) _ hstep.1 hstep.2

/-- If the search pass stops before both the limit and the end of the
stream, then it stopped because the matched list reached the size of
the candidate list. -/
theorem searchLoop_early_stop (remaining : List String) :
    ∀ (evs : List (Option String)) (count : ℕ) (found : List String),
      (searchLoop remaining count found evs).2 < count + evs.length →
      (searchLoop remaining count found evs).2 < MAX_SEARCH_PHOTOS →
      (searchLoop remaining count found evs).1.length = remaining.length := by
  intro evs
  induction evs with
  | nil => intro count found h1 _; simp [searchLoop] at h1
  | cons e rest ih =>
      intro count found h1 h2
      cases e with
      | none =>
          simp only [searchLoop, List.length_cons] at h1 h2 ⊢
          exact ih (count + 1) found (by omega) h2
      | some f =>
          simp only [searchLoop, List.length_cons] at h1 h2 ⊢
          by_cases hfull :
              (if f ∈ remaining ∧ f ∉ found then found ++ [f]
                else found).length = remaining.length
          · rw [if_pos hfull]
            exact hfull
          · by_cases hlim : count + 1 ≥ MAX_SEARCH_PHOTOS
            · rw [if_neg hfull, if_pos hlim] at h2
              omega
            · rw [if_neg hfull, if_neg hlim] at h1 h2 ⊢
              exact ih (count + 1) _ (by omega) h2

theorem nodup_subset_length_eq (l r : List String) (hl : l.Nodup)
    (hr : r.Nodup) (hsub : ∀ f ∈ l, f ∈ r) (hlen : l.length = r.length) :
    ∀ c ∈ r, c ∈ l := by
  intro c hc
  have h1 : l.toFinset ⊆ r.toFinset := by
    intro x hx
    rw [List.mem_toFinset] at hx ⊢
    exact hsub x hx
  have hcard : r.toFinset.card ≤ l.toFinset.card := by
    rw [List.toFinset_card_of_nodup hl, List.toFinset_card_of_nodup hr]
    omega
  have heq := Finset.eq_of_subset_of_card_le h1 hcard
  rw [← List.mem_toFinset, heq, List.mem_toFinset]
  exact hc

/-- Claim C10 (amended): provided every enumerated item's fields are
readable, the search pass examines at most 15,000 items, and if it
stops both below that limit and before the stream is exhausted then
every candidate has been matched; every candidate the search did not
match is tallied in the `skipped` counter (a field distinct from the
`failed` counter) and is never handed to the delete capability.  (An
item whose field access raises skips the limit check, which is why the
readability proviso is needed — see the counterexample.) -/
theorem c10_search_bound_and_unmatched_skipped (remaining : List String)
    (stream : List (Option String)) (del : String → Bool) (p : DelProgress)
    (hne : ∀ e ∈ stream, e ≠ none) (hnd : remaining.Nodup) :
    (searchRun remaining stream).2 ≤ MAX_SEARCH_PHOTOS ∧
    ((searchRun remaining stream).2 < MAX_SEARCH_PHOTOS →
      (searchRun remaining stream).2 < stream.length →
      ∀ c ∈ remaining, c ∈ (searchRun remaining stream).1) ∧
    ((deleteRun p remaining (searchRun remaining stream).1 del).skipped =
      p.stat_skipped +
        (remaining.filter
          (fun f => f ∉ (searchRun remaining stream).1)).length) ∧
    (∀ c ∈ remaining, c ∉ (searchRun remaining stream).1 →
      c ∉ (deleteRun p remaining (searchRun remaining stream).1
            del).attempted) := by
  refine ⟨?_, ?_, ?_, ?_⟩
  · exact searchLoop_count_le remaining stream 0 [] hne
      (by norm_num [MAX_SEARCH_PHOTOS])
  · intro h1 h2 c hc
    have hstop := searchLoop_early_stop remaining stream 0 []
      (by simpa using h2) h1
    have hinv := searchLoop_found_inv remaining stream 0 []
      List.nodup_nil (by simp)
    exact nodup_subset_length_eq _ _ hinv.1 hnd hinv.2 hstop c hc
  · unfold deleteRun
    rw [deleteLoop_skipped]
  · intro c _ hcf hmem
    unfold deleteRun at hmem
    rw [deleteLoop_attempted] at hmem
    simp only [List.nil_append, List.append_nil] at hmem
    have := List.mem_filter.mp hmem
    simp only [decide_eq_true_eq] at this
    exact hcf this.2

/-- Witness for `c10_search_bound_and_unmatched_skipped` at a concrete
two-candidate input where only one candidate is matched. -/
theorem c10_search_bound_and_unmatched_skipped_witness :
    (searchRun ["a", "b"] [some "a", some "x"]).2 ≤ MAX_SEARCH_PHOTOS ∧
    (deleteRun emptyDelProgress ["a", "b"]
        (searchRun ["a", "b"] [some "a", some "x"]).1 (fun _ => true)).skipped =
      emptyDelProgress.stat_skipped +
        (["a", "b"].filter
          (fun f => f ∉ (searchRun ["a", "b"] [some "a", some "x"]).1)).length ∧
    "b" ∉ (deleteRun emptyDelProgress ["a", "b"]
        (searchRun ["a", "b"] [some "a", some "x"]).1
        (fun _ => true)).attempted := by
  have h := c10_search_bound_and_unmatched_skipped ["a", "b"]
    [some "a", some "x"] (fun _ => true) emptyDelProgress
    (by decide) (by decide)
  exact ⟨h.1, h.2.2.1, h.2.2.2 "b" (by decide) (by decide)⟩

/-! ## Claim C3 -/

/-- An enumerator event yielding a not-yet-seen filename whose download
is skipped because the file is already valid on disk (the outcome of
the item is irrelevant to cycle detection). -/
def freshItemEv (f : String) : SmartEv :=
  SmartEv.item f none true true (fun _ => true)

/-- The event yields an item whose filename is already in `seen`. -/
def IsRepeatItem (seen : List String) : SmartEv → Prop
  | SmartEv.item f _ _ _ _ => f ∈ seen
  | _ => False

theorem smartStep_fresh (st : SmartSt) (f : String) (h0 : st.startIdx = 0)
    (hseen : f ∉ st.seen) (hdown : f ∉ st.downloadedSet)
    (hidx : f ∉ st.indexed) :
    smartStep none st (freshItemEv f) = StepRes.next
      { st with photoNum := st.photoNum + 1,
                seen := st.seen ++ [f],
                indexed := st.indexed ++ [f],
                newly := st.newly ++ [f],
                consecutiveDuplicates := 0,
                skipped := st.skipped + 1,
                downloadedSet := st.downloadedSet ++ [f],
                validAdds := st.validAdds + 1 } := by
  simp [smartStep, smartBody, freshItemEv, setAdd, h0, hseen, hdown, hidx]

theorem smartStep_repeat (st : SmartSt) (f : String) (d : Option ℤ)
    (hc v : Bool) (att : ℕ → Bool) (h0 : st.startIdx = 0)
    (hseen : f ∈ st.seen)
    (hcd : st.consecutiveDuplicates < MAX_CONSECUTIVE_DUPLICATES) :
    smartStep none st (SmartEv.item f d hc v att) = StepRes.next
      { st with photoNum := st.photoNum + 1,
                consecutiveDuplicates := st.consecutiveDuplicates + 1 } := by
  have h2 : ¬(st.consecutiveDuplicates + 1 > MAX_CONSECUTIVE_DUPLICATES) := by
    omega
  simp [smartStep, smartBody, h0, hseen, h2]

theorem smartStep_repeat_break (st : SmartSt) (f : String) (d : Option ℤ)
    (hc v : Bool) (att : ℕ → Bool) (h0 : st.startIdx = 0)
    (hseen : f ∈ st.seen)
    (hcd : st.consecutiveDuplicates ≥ MAX_CONSECUTIVE_DUPLICATES) :
    smartStep none st (SmartEv.item f d hc v att) = StepRes.brk
      { st with photoNum := st.photoNum + 1,
                consecutiveDuplicates := st.consecutiveDuplicates + 1 } := by
  have h2 : st.consecutiveDuplicates + 1 > MAX_CONSECUTIVE_DUPLICATES := by
    omega
  simp [smartStep, smartBody, h0, hseen, h2]

theorem smartLoop_fresh (names : List String) :
    ∀ (st : SmartSt) (rest : List SmartEv), st.startIdx = 0 →
      st.consecutiveDuplicates = 0 → names.Nodup →
      (∀ f ∈ names, f ∉ st.seen) → (∀ f ∈ names, f ∉ st.downloadedSet) →
      (∀ f ∈ names, f ∉ st.indexed) →
      smartLoop none st (names.map freshItemEv ++ rest) =
        smartLoop none
          { st with photoNum := st.photoNum + names.length,
                    seen := st.seen ++ names,
                    indexed := st.indexed ++ names,
                    newly := st.newly ++ names,
                    consecutiveDuplicates := 0,
                    skipped := st.skipped + names.length,
                    downloadedSet := st.downloadedSet ++ names,
                    validAdds := st.validAdds + names.length } rest := by
  induction names with
  | nil =>
      intro st rest h0 hcd _ _ _ _
      cases st
      simp_all
  | cons f tail ih =>
      intro st rest h0 hcd hnd hseen hdown hidx
      simp only [List.map_cons, List.cons_append, smartLoop,
        smartStep_fresh st f h0 (hseen f (by simp)) (hdown f (by simp))
          (hidx f (by simp))]
      simp only [List.append_eq]
      rw [ih _ rest (by simp [h0]) (by simp) (List.Nodup.of_cons hnd)
        (by
          intro g hg
          simp only [List.mem_append, List.mem_singleton, not_or]
          exact ⟨hseen g (List.mem_cons_of_mem f hg),
            (List.nodup_cons.mp hnd).1 ∘ fun h => h ▸ hg⟩)
        (by
          intro g hg
          simp only [List.mem_append, List.mem_singleton, not_or]
          exact ⟨hdown g (List.mem_cons_of_mem f hg),
            (List.nodup_cons.mp hnd).1 ∘ fun h => h ▸ hg⟩)
        (by
          intro g hg
          simp only [List.mem_append, List.mem_singleton, not_or]
          exact ⟨hidx g (List.mem_cons_of_mem f hg),
            (List.nodup_cons.mp hnd).1 ∘ fun h => h ▸ hg⟩)]
      congr 1
      cases st
      simp only [SmartSt.mk.injEq, List.append_assoc, List.singleton_append,
        List.length_cons]
      repeat' apply And.intro
      all_goals first
        | rfl
        | omega
        | trivial

theorem smartLoop_repeats :
    ∀ (evs : List SmartEv) (st : SmartSt), st.startIdx = 0 →
      (∀ e ∈ evs, IsRepeatItem st.seen e) →
      st.consecutiveDuplicates ≤ MAX_CONSECUTIVE_DUPLICATES →
      st.consecutiveDuplicates + evs.length > MAX_CONSECUTIVE_DUPLICATES →
      smartLoop none st evs = smartFinal
        { st with
            photoNum := st.photoNum +
              (MAX_CONSECUTIVE_DUPLICATES + 1 - st.consecutiveDuplicates),
            consecutiveDuplicates := MAX_CONSECUTIVE_DUPLICATES + 1 } := by
  intro evs
  induction evs with
  | nil =>
      intro st _ _ hle hgt
      simp only [List.length_nil] at hgt
      omega
  | cons e rest ih =>
      intro st h0 hrep hle hgt
      have hre := hrep e (List.mem_cons_self _ _)
      cases e with
      | item f d hc v att =>
          have hf : f ∈ st.seen := hre
          by_cases hbr : st.consecutiveDuplicates ≥ MAX_CONSECUTIVE_DUPLICATES
          · simp only [smartLoop,
              smartStep_repeat_break st f d hc v att h0 hf hbr]
            congr 1
            cases st
            dsimp only at hbr hle
            simp only [SmartSt.mk.injEq]
            repeat' apply And.intro
            all_goals first
              | rfl
              | omega
              | trivial
          · simp only [smartLoop,
              smartStep_repeat st f d hc v att h0 hf (by omega)]
            have hih := ih
              { st with photoNum := st.photoNum + 1,
                        consecutiveDuplicates := st.consecutiveDuplicates + 1 }
              h0 (fun e he => hrep e (List.mem_cons_of_mem _ he))
              (show st.consecutiveDuplicates + 1 ≤ MAX_CONSECUTIVE_DUPLICATES
                by omega)
              (show st.consecutiveDuplicates + 1 + rest.length >
                  MAX_CONSECUTIVE_DUPLICATES by
                simp only [List.length_cons] at hgt
                omega)
            rw [hih]
            congr 1
            cases st
            dsimp only at hbr hle
            simp only [SmartSt.mk.injEq]
            repeat' apply And.intro
            all_goals first
              | rfl
              | omega
              | trivial
      | fieldError => exact absurd hre (by simp [IsRepeatItem])
      | transportError => exact absurd hre (by simp [IsRepeatItem])
      | interruptAdvance => exact absurd hre (by simp [IsRepeatItem])
      | interruptProcess => exact absurd hre (by simp [IsRepeatItem])

theorem indexBuildLoop_fresh (names : List String) :
    ∀ (st : IndexBuildSt) (rest : List (Option String)),
      st.consecutiveDuplicates = 0 → names.Nodup →
      (∀ f ∈ names, f ∉ st.seen) →
      indexBuildLoop st (names.map some ++ rest) =
        indexBuildLoop
          { st with count := st.count + names.length,
                    seen := st.seen ++ names,
                    newly := st.newly ++ names,
                    consecutiveDuplicates := 0 } rest := by
  induction names with
  | nil =>
      intro st rest hcd _ _
      cases st
      simp_all
  | cons f tail ih =>
      intro st rest hcd hnd hseen
      simp only [List.map_cons, List.cons_append, indexBuildLoop]
      rw [if_neg (hseen f (List.mem_cons_self _ _))]
      have hih := ih
        { st with count := st.count + 1,
                  seen := st.seen ++ [f],
                  newly := st.newly ++ [f],
                  consecutiveDuplicates := 0 }
        rest rfl (List.Nodup.of_cons hnd)
        (by
          intro g hg
          simp only [List.mem_append, List.mem_singleton, not_or]
          exact ⟨hseen g (List.mem_cons_of_mem f hg),
            (List.nodup_cons.mp hnd).1 ∘ fun h => h ▸ hg⟩)
      simp only [List.append_eq]
      rw [hih]
      congr 1
      cases st
      simp only [IndexBuildSt.mk.injEq, List.append_assoc,
        List.singleton_append, List.length_cons]
      repeat' apply And.intro
      all_goals first
        | rfl
        | omega
        | trivial

theorem indexBuildLoop_repeats :
    ∀ (evs : List (Option String)) (st : IndexBuildSt),
      (∀ e ∈ evs, ∃ f, f ∈ st.seen ∧ e = some f) →
      st.consecutiveDuplicates < MAX_CONSECUTIVE_DUPLICATES →
      st.consecutiveDuplicates + evs.length ≥ MAX_CONSECUTIVE_DUPLICATES →
      indexBuildLoop st evs =
        { st with
            count := st.count +
              (MAX_CONSECUTIVE_DUPLICATES - st.consecutiveDuplicates),
            consecutiveDuplicates := MAX_CONSECUTIVE_DUPLICATES } := by
  intro evs
  induction evs with
  | nil =>
      intro st _ hlt hge
      simp only [List.length_nil] at hge
      omega
  | cons e rest ih =>
      intro st hrep hlt hge
      obtain ⟨f, hf, he⟩ := hrep e (List.mem_cons_self _ _)
      subst he
      simp only [indexBuildLoop]
      rw [if_pos hf]
      by_cases hbr : st.consecutiveDuplicates + 1 ≥ MAX_CONSECUTIVE_DUPLICATES
      · rw [if_pos hbr]
        cases st
        dsimp only at hlt hbr
        simp only [IndexBuildSt.mk.injEq]
        repeat' apply And.intro
        all_goals first
          | rfl
          | omega
          | trivial
      · rw [if_neg hbr]
        have hih := ih
          { st with count := st.count + 1,
                    consecutiveDuplicates := st.consecutiveDuplicates + 1 }
          (fun e he => hrep e (List.mem_cons_of_mem _ he))
          (show st.consecutiveDuplicates + 1 < MAX_CONSECUTIVE_DUPLICATES
            by omega)
          (show st.consecutiveDuplicates + 1 + rest.length ≥
              MAX_CONSECUTIVE_DUPLICATES by
            simp only [List.length_cons] at hge
            omega)
        rw [hih]
        cases st
        dsimp only at hlt hbr
        simp only [IndexBuildSt.mk.injEq]
        repeat' apply And.intro
        all_goals first
          | rfl
          | omega
          | trivial

theorem smartFinal_photoNum (st : SmartSt) :
    (smartFinal st).st.photoNum = st.photoNum := rfl

theorem smartFinal_newly (st : SmartSt) :
    (smartFinal st).st.newly = st.newly := rfl

theorem smartFinal_exitKind (st : SmartSt) :
    (smartFinal st).exitKind = ExitKind.normal := rfl

/-- Claim C3 counterexample: with 10 distinct filenames followed by 600
repeats, the smart-download enumeration examines 511 items before
terminating — the 501st consecutive repeat triggers the break
(`consecutive_duplicates > 500`, src/smart_download.py line 379) —
not the claimed 10 + 500 = 510. -/
theorem c3_terminates_after_501_repeats_cex :
    (runSmart emptyProgress [] none
        (["n0", "n1", "n2", "n3", "n4", "n5", "n6", "n7", "n8", "n9"].map
            freshItemEv ++
          List.replicate 600 (freshItemEv "n0"))).st.photoNum = 511 := by
  decide

/-- Claim C3 (amended): for a stream yielding 10 distinct filenames and
then repeating them indefinitely, smart_download's enumeration
terminates after 501 (= T + 1) consecutive repeats, having examined
10 + 501 = 511 items and having yielded each of the 10 filenames exactly
once as new; the archived index builder's enumeration (which breaks on
`>=` rather than `>`) terminates after exactly T = 500 consecutive
repeats, having examined 510 items.  A filename already in the seen set
increments the consecutive-repeat counter; a novel one resets it to
zero. -/
theorem c3_cycle_termination (names : List String) (tail : List SmartEv)
    (tailB : List (Option String)) (hlen10 : names.length = 10)
    (hnd : names.Nodup) (hrep : ∀ e ∈ tail, IsRepeatItem names e)
    (htl : tail.length ≥ 501)
    (hrepB : ∀ e ∈ tailB, ∃ f, f ∈ names ∧ e = some f)
    (htlB : tailB.length ≥ 500) :
    (runSmart emptyProgress [] none
        (names.map freshItemEv ++ tail)).st.photoNum = 511 ∧
    (runSmart emptyProgress [] none
        (names.map freshItemEv ++ tail)).st.newly = names ∧
    (runSmart emptyProgress [] none
        (names.map freshItemEv ++ tail)).exitKind = ExitKind.normal ∧
    (indexBuildRun (names.map some ++ tailB)).count = 510 ∧
    (indexBuildRun (names.map some ++ tailB)).newly = names := by
  have hseen0 : ∀ f ∈ names, f ∉ (initSmartSt emptyProgress []).seen := by
    simp [initSmartSt, emptyProgress]
  have hdown0 : ∀ f ∈ names, f ∉ (initSmartSt emptyProgress []).downloadedSet := by
    simp [initSmartSt, emptyProgress]
  have hidx0 : ∀ f ∈ names, f ∉ (initSmartSt emptyProgress []).indexed := by
    simp [initSmartSt, emptyProgress]
  have hsmart : runSmart emptyProgress [] none (names.map freshItemEv ++ tail)
      = smartFinal
        { initSmartSt emptyProgress [] with
            photoNum := (initSmartSt emptyProgress []).photoNum + names.length +
              (MAX_CONSECUTIVE_DUPLICATES + 1 - 0),
            seen := (initSmartSt emptyProgress []).seen ++ names,
            indexed := (initSmartSt emptyProgress []).indexed ++ names,
            newly := (initSmartSt emptyProgress []).newly ++ names,
            consecutiveDuplicates := MAX_CONSECUTIVE_DUPLICATES + 1,
            skipped := (initSmartSt emptyProgress []).skipped + names.length,
            downloadedSet := (initSmartSt emptyProgress []).downloadedSet ++ names,
            validAdds := (initSmartSt emptyProgress []).validAdds + names.length } := by
    unfold runSmart
    rw [smartLoop_fresh names (initSmartSt emptyProgress []) tail rfl rfl hnd
      hseen0 hdown0 hidx0]
    rw [smartLoop_repeats tail _ rfl
      (by simpa [initSmartSt, emptyProgress] using hrep)
      (Nat.zero_le _)
      (by
        simp only [List.length_cons, MAX_CONSECUTIVE_DUPLICATES]
        omega)]
  have hbuild : indexBuildRun (names.map some ++ tailB) =
      { count := 0 + names.length + (MAX_CONSECUTIVE_DUPLICATES - 0),
        seen := [] ++ names,
        newly := [] ++ names,
        consecutiveDuplicates := MAX_CONSECUTIVE_DUPLICATES } := by
    unfold indexBuildRun
    rw [indexBuildLoop_fresh names _ tailB rfl hnd (by simp)]
    rw [indexBuildLoop_repeats tailB _
      (by simpa using hrepB)
      (by simp [MAX_CONSECUTIVE_DUPLICATES])
      (by
        simp only [MAX_CONSECUTIVE_DUPLICATES]
        omega)]
  refine ⟨?_, ?_, ?_, ?_, ?_⟩
  · rw [hsmart, smartFinal_photoNum]
    simp [initSmartSt, emptyProgress, MAX_CONSECUTIVE_DUPLICATES, hlen10]
  · rw [hsmart, smartFinal_newly]
    simp [initSmartSt, emptyProgress]
  · rw [hsmart, smartFinal_exitKind]
  · rw [hbuild]
    simp [MAX_CONSECUTIVE_DUPLICATES, hlen10]
  · rw [hbuild]
    simp

/-- Witness for `c3_cycle_termination` with concrete filenames and
repeat tails. -/
theorem c3_cycle_termination_witness :
    (["m0", "m1", "m2", "m3", "m4", "m5", "m6", "m7", "m8",
        "m9"] : List String).length = 10 ∧
    (runSmart emptyProgress [] none
        (["m0", "m1", "m2", "m3", "m4", "m5", "m6", "m7", "m8", "m9"].map
            freshItemEv ++
          List.replicate 501 (freshItemEv "m0"))).st.photoNum = 511 ∧
    (indexBuildRun
        (["m0", "m1", "m2", "m3", "m4", "m5", "m6", "m7", "m8", "m9"].map
            some ++
          List.replicate 500 (some "m0"))).count = 510 := by
  have h := c3_cycle_termination
    ["m0", "m1", "m2", "m3", "m4", "m5", "m6", "m7", "m8", "m9"]
    (List.replicate 501 (freshItemEv "m0"))
    (List.replicate 500 (some "m0"))
    (by decide) (by decide)
    (fun e he => by
      rw [List.eq_of_mem_replicate he]
      show ("m0" : String) ∈ _
      decide)
    (by simp)
    (fun e he => ⟨"m0", by decide, List.eq_of_mem_replicate he⟩)
    (by simp)
  exact ⟨by decide, h.1, h.2.2.2.1⟩

/-! ## Claim C4 -/

theorem smartBody_next_or_brk (st : SmartSt) (f : String) (hc v : Bool)
    (att : ℕ → Bool) :
    (∃ st2, smartBody st f hc v att = StepRes.next st2) ∨
    (∃ st2, smartBody st f hc v att = StepRes.brk st2) := by
  unfold smartBody
  dsimp only
  repeat' split
  all_goals first
    | exact Or.inl ⟨_, rfl⟩
    | exact Or.inr ⟨_, rfl⟩

/-- The loop only exits the process from one of the three
exception-carrying events, and an interrupt caught inside per-item
processing always leaves the persisted progress equal to the snapshot
of the final in-memory state, with the index saved as well. -/
theorem smartStep_exit_cases (cutoff : Option ℤ) (st : SmartSt)
    (ev : SmartEv) (out : SmartOut)
    (h : smartStep cutoff st ev = StepRes.exit out) :
    (ev = SmartEv.interruptAdvance ∧ out.exitKind = ExitKind.intAdvance) ∨
    (ev = SmartEv.transportError ∧ out.exitKind = ExitKind.errored) ∨
    (ev = SmartEv.interruptProcess ∧ out.exitKind = ExitKind.intProcess ∧
      out.st.persisted = snapshotProg out.st ∧
      out.st.persistedIndex = out.st.indexed) := by
  cases ev with
  | interruptAdvance =>
      simp only [smartStep] at h
      injection h with h
      exact Or.inl ⟨rfl, by rw [← h]⟩
  | transportError =>
      simp only [smartStep] at h
      injection h with h
      exact Or.inr (Or.inl ⟨rfl, by rw [← h]⟩)
  | interruptProcess =>
      simp only [smartStep] at h
      injection h with h
      refine Or.inr (Or.inr ⟨rfl, by rw [← h], ?_, ?_⟩) <;>
        rw [← h] <;> rfl
  | fieldError =>
      simp only [smartStep] at h
      split at h <;> exact absurd h (by simp)
  | item f d hc v att =>
      simp only [smartStep] at h
      split at h
      · exact absurd h (by simp)
      · split at h
        · split at h
          · split at h <;> exact absurd h (by simp)
          · rcases smartBody_next_or_brk _ f hc v att with ⟨st2, h2⟩ | ⟨st2, h2⟩ <;>
              rw [h2] at h <;> exact absurd h (by simp)
        · rcases smartBody_next_or_brk _ f hc v att with ⟨st2, h2⟩ | ⟨st2, h2⟩ <;>
            rw [h2] at h <;> exact absurd h (by simp)
        · rcases smartBody_next_or_brk _ f hc v att with ⟨st2, h2⟩ | ⟨st2, h2⟩ <;>
            rw [h2] at h <;> exact absurd h (by simp)

/-- Claim C4 counterexample: a run that downloads one item and is then
interrupted while the enumerator advances to the next item exits with NO
save at all: the per-item KeyboardInterrupt handler
(src/smart_download.py line 480) sits inside the loop body, and the
outer handler (line 556) catches only `Exception`, which
KeyboardInterrupt does not subclass, so the persisted progress still
shows zero downloads while the in-memory state has one. -/
theorem c4_interrupt_during_advance_no_save_cex :
    (runSmart emptyProgress [] none
        [SmartEv.item "a.jpg" none true false (fun _ => true),
         SmartEv.interruptAdvance]).exitKind = ExitKind.intAdvance ∧
    (runSmart emptyProgress [] none
        [SmartEv.item "a.jpg" none true false (fun _ => true),
         SmartEv.interruptAdvance]).st.saves = [] ∧
    (runSmart emptyProgress [] none
        [SmartEv.item "a.jpg" none true false (fun _ => true),
         SmartEv.interruptAdvance]).st.downloaded = 1 ∧
    (runSmart emptyProgress [] none
        [SmartEv.item "a.jpg" none true false (fun _ => true),
         SmartEv.interruptAdvance]).st.persisted = emptyProgress := by
  refine ⟨?_, ?_, ?_, ?_⟩ <;> decide

/-- Claim C4 (amended): an interrupt caught inside per-item processing
always triggers a save before exit — the run then ends with the
persisted progress equal to the snapshot of the final in-memory state
and the index saved; an interrupt that arrives while the enumerator is
advancing to the next item, however, exits without any save (see the
counterexample). -/
theorem c4_interrupt_in_processing_saves (start : Progress)
    (index0 : List String) (cutoff : Option ℤ) (evs : List SmartEv)
    (h : (runSmart start index0 cutoff evs).exitKind = ExitKind.intProcess) :
    (runSmart start index0 cutoff evs).st.persisted =
      snapshotProg (runSmart start index0 cutoff evs).st ∧
    (runSmart start index0 cutoff evs).st.persistedIndex =
      (runSmart start index0 cutoff evs).st.indexed := by
  unfold runSmart at h ⊢
  generalize initSmartSt start index0 = st at h ⊢
  induction evs generalizing st with
  | nil =>
      rw [show smartLoop cutoff st [] = smartFinal st from rfl,
        smartFinal_exitKind] at h
      cases h
  | cons e rest ih =>
      simp only [smartLoop] at h ⊢
      cases hstep : smartStep cutoff st e with
      | next st2 =>
          rw [hstep] at h
          exact ih st2 h
      | brk st2 =>
          rw [hstep] at h
          have h2 : (smartFinal st2).exitKind = ExitKind.intProcess := h
          rw [smartFinal_exitKind] at h2
          cases h2
      | exit out =>
          rw [hstep] at h
          have h2 : out.exitKind = ExitKind.intProcess := h
          rcases smartStep_exit_cases cutoff st e out hstep with
            ⟨_, hk⟩ | ⟨_, hk⟩ | ⟨_, _, hp, hi⟩
          · rw [hk] at h2; cases h2
          · rw [hk] at h2; cases h2
          · exact ⟨hp, hi⟩

/-- Witness for `c4_interrupt_in_processing_saves`: a run interrupted
inside the first item's processing. -/
theorem c4_interrupt_in_processing_saves_witness :
    (runSmart emptyProgress [] none
        [SmartEv.interruptProcess]).exitKind = ExitKind.intProcess ∧
    (runSmart emptyProgress [] none [SmartEv.interruptProcess]).st.persisted =
      snapshotProg (runSmart emptyProgress [] none
        [SmartEv.interruptProcess]).st :=
  ⟨by decide,
    (c4_interrupt_in_processing_saves emptyProgress [] none
      [SmartEv.interruptProcess] (by decide)).1⟩

/-! ## Claim C5 -/

theorem setAdd_length_le (l : List String) (f : String) :
    l.length ≤ (setAdd l f).length := by
  by_cases h : f ∈ l <;> simp [setAdd, h]

theorem setAdd_length_of_not_mem (l : List String) (f : String)
    (h : f ∉ l) : (setAdd l f).length = l.length + 1 := by
  simp [setAdd, h]

theorem setAdd_nodup (l : List String) (f : String) (h : l.Nodup) :
    (setAdd l f).Nodup := by
  by_cases hf : f ∈ l
  · simpa [setAdd, hf] using h
  · rw [setAdd, if_neg hf]
    exact h.append (List.nodup_singleton f) (List.disjoint_singleton.mpr hf)

/-- The relation between a persisted counter and its set that claim C5
is about, abstracted over the comparison `r`. -/
def ProgDownRel (r : ℕ → ℕ → Prop) (p : Progress) : Prop :=
  r p.stat_downloaded p.downloaded_files.length ∧ p.downloaded_files.Nodup

def DownRelInv (r : ℕ → ℕ → Prop) (st : SmartSt) : Prop :=
  r st.downloaded st.downloadedSet.length ∧ st.downloadedSet.Nodup ∧
  ProgDownRel r st.prog ∧ ProgDownRel r st.persisted ∧
  ∀ p ∈ st.saves, ProgDownRel r p

def StepDownRel (r : ℕ → ℕ → Prop) : StepRes → Prop
  | StepRes.next st => DownRelInv r st
  | StepRes.brk st => DownRelInv r st
  | StepRes.exit out => DownRelInv r out.st

/-- The valid-on-disk flag of an event (false for non-item events). -/
def evValid : SmartEv → Bool
  | SmartEv.item _ _ _ v _ => v
  | _ => false

theorem downRelInv_snapshot (r : ℕ → ℕ → Prop) (st : SmartSt)
    (hinv : DownRelInv r st) : ProgDownRel r (snapshotProg st) :=
  ⟨hinv.1, hinv.2.1⟩

theorem downRelInv_saveFresh (r : ℕ → ℕ → Prop) (st : SmartSt)
    (hinv : DownRelInv r st) :
    DownRelInv r (doSaveIndex (doSaveProgress st (snapshotProg st))) := by
  obtain ⟨h1, h2, h3, h4, h5⟩ := hinv
  refine ⟨h1, h2, ⟨h1, h2⟩, ⟨h1, h2⟩, ?_⟩
  intro p hp
  rcases List.mem_append.mp hp with hp | hp
  · exact h5 p hp
  · rw [List.mem_singleton.mp hp]
    exact ⟨h1, h2⟩

theorem smartFinal_downRel (r : ℕ → ℕ → Prop) (st : SmartSt)
    (hinv : DownRelInv r st) : DownRelInv r (smartFinal st).st :=
  downRelInv_saveFresh r st hinv

theorem smartBody_downRel (r : ℕ → ℕ → Prop)
    (hmono : ∀ d l, r d l → r (d + 1) (l + 1))
    (st : SmartSt) (f : String) (hc v : Bool) (att : ℕ → Bool)
    (hvalid : v = true → ∀ d l, r d l → r d (l + 1))
    (hinv : DownRelInv r st) :
    StepDownRel r (smartBody st f hc v att) := by
  obtain ⟨h1, h2, h3, h4, h5⟩ := hinv
  unfold smartBody
  dsimp only
  by_cases hseen : f ∈ st.seen
  · rw [if_pos hseen]
    split
    · exact ⟨h1, h2, h3, h4, h5⟩
    · exact ⟨h1, h2, h3, h4, h5⟩
  · rw [if_neg hseen]
    by_cases hmem : f ∈ st.downloadedSet
    · rw [if_pos hmem]
      exact ⟨h1, h2, h3, h4, h5⟩
    · rw [if_neg hmem]
      by_cases hhc : hc = false
      · rw [if_pos hhc]
        exact ⟨h1, h2, h3, h4, h5⟩
      · rw [if_neg hhc]
        by_cases hv : v = true
        · rw [if_pos hv]
          refine ⟨?_, setAdd_nodup _ _ h2, h3, h4, h5⟩
          rw [setAdd_length_of_not_mem _ _ hmem]
          exact hvalid hv _ _ h1
        · rw [if_neg hv]
          by_cases hdl : (download_photo_with_retry att).1 = true
          · rw [if_pos hdl]
            split
            · refine downRelInv_saveFresh r _ ⟨?_, setAdd_nodup _ _ h2, h3, h4, h5⟩
              rw [setAdd_length_of_not_mem _ _ hmem]
              exact hmono _ _ h1
            · refine ⟨?_, setAdd_nodup _ _ h2, h3, h4, h5⟩
              rw [setAdd_length_of_not_mem _ _ hmem]
              exact hmono _ _ h1
          · rw [if_neg hdl]
            split
            · exact downRelInv_saveFresh r _ ⟨h1, h2, h3, h4, h5⟩
            · exact ⟨h1, h2, h3, h4, h5⟩

theorem smartStep_downRel (r : ℕ → ℕ → Prop)
    (hmono : ∀ d l, r d l → r (d + 1) (l + 1))
    (cutoff : Option ℤ) (st : SmartSt) (ev : SmartEv)
    (hvalid : evValid ev = true → ∀ d l, r d l → r d (l + 1))
    (hinv : DownRelInv r st) :
    StepDownRel r (smartStep cutoff st ev) := by
  obtain ⟨h1, h2, h3, h4, h5⟩ := hinv
  cases ev with
  | interruptAdvance => exact ⟨h1, h2, h3, h4, h5⟩
  | transportError =>
      refine ⟨h1, h2, h3, h3, ?_⟩
      intro p hp
      rcases List.mem_append.mp hp with hp | hp
      · exact h5 p hp
      · rw [List.mem_singleton.mp hp]
        exact h3
  | interruptProcess =>
      exact downRelInv_saveFresh r _ ⟨h1, h2, h3, h4, h5⟩
  | fieldError =>
      dsimp only [smartStep]
      split
      · exact ⟨h1, h2, h3, h4, h5⟩
      · exact ⟨h1, h2, h3, h4, h5⟩
  | item f d hc v att =>
      have hv : v = true → ∀ d l, r d l → r d (l + 1) := fun h =>
        hvalid (by simpa [evValid] using h)
      dsimp only [smartStep]
      split
      · exact ⟨h1, h2, h3, h4, h5⟩
      · split
        · split
          · split
            · exact ⟨h1, h2, h3, h4, h5⟩
            · exact ⟨h1, h2, h3, h4, h5⟩
          · exact smartBody_downRel r hmono _ f hc v att hv ⟨h1, h2, h3, h4, h5⟩
        · exact smartBody_downRel r hmono _ f hc v att hv ⟨h1, h2, h3, h4, h5⟩
        · exact smartBody_downRel r hmono _ f hc v att hv ⟨h1, h2, h3, h4, h5⟩

theorem smartLoop_downRel (r : ℕ → ℕ → Prop)
    (hmono : ∀ d l, r d l → r (d + 1) (l + 1)) (cutoff : Option ℤ) :
    ∀ (evs : List SmartEv) (st : SmartSt),
      (∀ e ∈ evs, evValid e = true → ∀ d l, r d l → r d (l + 1)) →
      DownRelInv r st → DownRelInv r (smartLoop cutoff st evs).st := by
  intro evs
  induction evs with
  | nil => intro st _ hinv; exact smartFinal_downRel r st hinv
  | cons e rest ih =>
      intro st hv hinv
      have hstep := smartStep_downRel r hmono cutoff st e
        (hv e (List.mem_cons_self _ _)) hinv
      simp only [smartLoop]
      cases hres : smartStep cutoff st e with
      | next st2 =>
          rw [hres] at hstep
          exact ih st2 (fun e he => hv e (List.mem_cons_of_mem _ he)) hstep
      | brk st2 =>
          rw [hres] at hstep
          exact smartFinal_downRel r st2 hstep
      | exit out =>
          rw [hres] at hstep
          exact hstep

/-- Claim C5 counterexample: a run over one item whose file already
exists valid on disk persists a final state whose downloaded counter is
0 while the downloaded-files set has 1 element: the skip branch at
src/smart_download.py lines 417-423 adds to `downloaded_set` without
incrementing `downloaded`. -/
theorem c5_downloaded_counter_cex :
    (runSmart emptyProgress [] none
        [SmartEv.item "a.jpg" none true true
          (fun _ => true)]).st.persisted.stat_downloaded = 0 ∧
    (runSmart emptyProgress [] none
        [SmartEv.item "a.jpg" none true true
          (fun _ => true)]).st.persisted.downloaded_files.length = 1 := by
  refine ⟨?_, ?_⟩ <;> decide

/-- Claim C5 (amended): in every snapshot written by `save_progress`
during a run, the downloaded counter is at most the cardinality of the
downloaded-files set (provided the loaded state already satisfied the
bound); equality holds in every snapshot only when no enumerated item
was skipped as already-valid-on-disk — such items enter the set without
incrementing the counter. -/
theorem c5_downloaded_counter_vs_set (start : Progress)
    (index0 : List String) (cutoff : Option ℤ) (evs : List SmartEv)
    (hnd : start.downloaded_files.Nodup) :
    (start.stat_downloaded ≤ start.downloaded_files.length →
      ∀ p ∈ (runSmart start index0 cutoff evs).st.saves,
        p.stat_downloaded ≤ p.downloaded_files.length) ∧
    ((∀ e ∈ evs, evValid e = false) →
      start.stat_downloaded = start.downloaded_files.length →
      ∀ p ∈ (runSmart start index0 cutoff evs).st.saves,
        p.stat_downloaded = p.downloaded_files.length) := by
  constructor
  · intro hle p hp
    have hinv0 : DownRelInv (fun d l => d ≤ l) (initSmartSt start index0) := by
      refine ⟨?_, ?_, ⟨hle, hnd⟩, ⟨hle, hnd⟩, by simp [initSmartSt]⟩
      · simpa [initSmartSt, List.Nodup.dedup hnd] using hle
      · simpa [initSmartSt] using List.nodup_dedup _
    have hfin := smartLoop_downRel (fun d l => d ≤ l)
      (fun d l h => by omega) cutoff evs (initSmartSt start index0)
      (fun e _ _ d l h => by omega) hinv0
    exact (hfin.2.2.2.2 p hp).1
  · intro hall heq p hp
    have hinv0 : DownRelInv (fun d l => d = l) (initSmartSt start index0) := by
      refine ⟨?_, ?_, ⟨heq, hnd⟩, ⟨heq, hnd⟩, by simp [initSmartSt]⟩
      · simpa [initSmartSt, List.Nodup.dedup hnd] using heq
      · simpa [initSmartSt] using List.nodup_dedup _
    have hfin := smartLoop_downRel (fun d l => d = l)
      (fun d l h => by omega) cutoff evs (initSmartSt start index0)
      (fun e he hv => absurd hv (by simp [hall e he])) hinv0
    exact (hfin.2.2.2.2 p hp).1

/-- Witness for `c5_downloaded_counter_vs_set`: a run from the empty
state downloading one item keeps the counter equal to the set size in
every saved snapshot. -/
theorem c5_downloaded_counter_vs_set_witness :
    emptyProgress.downloaded_files.Nodup ∧
    ∀ p ∈ (runSmart emptyProgress [] none
        [SmartEv.item "a.jpg" none true false (fun _ => true)]).st.saves,
      p.stat_downloaded = p.downloaded_files.length :=
  ⟨List.nodup_nil,
    (c5_downloaded_counter_vs_set emptyProgress [] none
        [SmartEv.item "a.jpg" none true false (fun _ => true)]
        List.nodup_nil).2
      (fun e he => by rw [List.eq_of_mem_singleton he]; rfl) rfl⟩

/-! ## Claim C6 -/

theorem mem_setAdd (l : List String) (f g : String) :
    g ∈ setAdd l f ↔ g ∈ l ∨ g = f := by
  by_cases hf : f ∈ l
  · simp only [setAdd, if_pos hf]
    constructor
    · exact Or.inl
    · rintro (h | h)
      · exact h
      · exact h ▸ hf
  · simp [setAdd, if_neg hf]

theorem subset_setAdd (l l2 : List String) (f : String)
    (h : ∀ g ∈ l2, g ∈ l) : ∀ g ∈ l2, g ∈ setAdd l f :=
  fun g hg => (mem_setAdd l f g).mpr (Or.inl (h g hg))

/-- The processed/failed disjointness of one persisted progress state:
no filename is in both the downloaded set and the failed list. -/
def DisjProg (p : Progress) : Prop :=
  ∀ f ∈ p.downloaded_files, f ∉ p.failed_files

def DisjInv (st : SmartSt) : Prop :=
  (∀ f ∈ st.downloadedSet, f ∉ st.prog.failed_files) ∧
  (∀ f ∈ st.downloadedSet, f ∈ st.seen) ∧
  (∀ f ∈ st.prog.failed_files, f ∈ st.seen) ∧
  (∀ f ∈ st.prog.downloaded_files, f ∈ st.downloadedSet) ∧
  DisjProg st.persisted ∧ ∀ p ∈ st.saves, DisjProg p

def StepDisj : StepRes → Prop
  | StepRes.next st => DisjInv st
  | StepRes.brk st => DisjInv st
  | StepRes.exit out => DisjInv out.st

theorem disjInv_saveFresh (st : SmartSt) (hinv : DisjInv st) :
    DisjInv (doSaveIndex (doSaveProgress st (snapshotProg st))) := by
  obtain ⟨h1, h2, h3, h4, h5, h6⟩ := hinv
  refine ⟨h1, h2, h3, fun f hf => hf, h1, ?_⟩
  intro p hp
  rcases List.mem_append.mp hp with hp | hp
  · exact h6 p hp
  · rw [List.mem_singleton.mp hp]
    exact h1

theorem smartFinal_disj (st : SmartSt) (hinv : DisjInv st) :
    DisjInv (smartFinal st).st :=
  disjInv_saveFresh st hinv

theorem smartBody_disj (st : SmartSt) (f : String) (hc v : Bool)
    (att : ℕ → Bool) (hinv : DisjInv st) :
    StepDisj (smartBody st f hc v att) := by
  obtain ⟨h1, h2, h3, h4, h5, h6⟩ := hinv
  unfold smartBody
  dsimp only
  by_cases hseen : f ∈ st.seen
  · rw [if_pos hseen]
    split
    · exact ⟨h1, h2, h3, h4, h5, h6⟩
    · exact ⟨h1, h2, h3, h4, h5, h6⟩
  · rw [if_neg hseen]
    have h2w : ∀ g ∈ st.downloadedSet, g ∈ st.seen ++ [f] :=
      fun g hg => List.mem_append_left _ (h2 g hg)
    have h3w : ∀ g ∈ st.prog.failed_files, g ∈ st.seen ++ [f] :=
      fun g hg => List.mem_append_left _ (h3 g hg)
    by_cases hmem : f ∈ st.downloadedSet
    · rw [if_pos hmem]
      exact ⟨h1, h2w, h3w, h4, h5, h6⟩
    · rw [if_neg hmem]
      by_cases hhc : hc = false
      · rw [if_pos hhc]
        exact ⟨h1, h2w, h3w, h4, h5, h6⟩
      · rw [if_neg hhc]
        have haddDisj : ∀ g ∈ setAdd st.downloadedSet f,
            g ∉ st.prog.failed_files := by
          intro g hg
          rcases (mem_setAdd _ _ _).mp hg with hg | hg
          · exact h1 g hg
          · exact hg ▸ fun hmem2 => hseen (h3 f hmem2)
        have haddSeen : ∀ g ∈ setAdd st.downloadedSet f,
            g ∈ st.seen ++ [f] := by
          intro g hg
          rcases (mem_setAdd _ _ _).mp hg with hg | hg
          · exact List.mem_append_left _ (h2 g hg)
          · rw [hg]
            exact List.mem_append_right _ (List.mem_singleton_self f)
        have haddSub : ∀ g ∈ st.prog.downloaded_files,
            g ∈ setAdd st.downloadedSet f :=
          subset_setAdd _ _ f h4
        by_cases hv : v = true
        · rw [if_pos hv]
          exact ⟨haddDisj, haddSeen, h3w, haddSub, h5, h6⟩
        · rw [if_neg hv]
          by_cases hdl : (download_photo_with_retry att).1 = true
          · rw [if_pos hdl]
            split
            · exact disjInv_saveFresh _
                ⟨haddDisj, haddSeen, h3w, haddSub, h5, h6⟩
            · exact ⟨haddDisj, haddSeen, h3w, haddSub, h5, h6⟩
          · rw [if_neg hdl]
            have hfailDisj : ∀ g ∈ st.downloadedSet,
                g ∉ st.prog.failed_files ++ [f] := by
              intro g hg hmem2
              rcases List.mem_append.mp hmem2 with hm | hm
              · exact h1 g hg hm
              · exact hseen (List.mem_singleton.mp hm ▸ h2 g hg)
            have hfailSeen : ∀ g ∈ st.prog.failed_files ++ [f],
                g ∈ st.seen ++ [f] := by
              intro g hg
              rcases List.mem_append.mp hg with hm | hm
              · exact List.mem_append_left _ (h3 g hm)
              · exact List.mem_append_right _ hm
            split
            · exact disjInv_saveFresh _
                ⟨hfailDisj, h2w, hfailSeen, h4, h5, h6⟩
            · exact ⟨hfailDisj, h2w, hfailSeen, h4, h5, h6⟩

theorem smartStep_disj (cutoff : Option ℤ) (st : SmartSt) (ev : SmartEv)
    (hinv : DisjInv st) : StepDisj (smartStep cutoff st ev) := by
  obtain ⟨h1, h2, h3, h4, h5, h6⟩ := hinv
  cases ev with
  | interruptAdvance => exact ⟨h1, h2, h3, h4, h5, h6⟩
  | transportError =>
      have hprogDisj : DisjProg st.prog :=
        fun g hg => h1 g (h4 g hg)
      refine ⟨h1, h2, h3, h4, hprogDisj, ?_⟩
      intro p hp
      rcases List.mem_append.mp hp with hp | hp
      · exact h6 p hp
      · rw [List.mem_singleton.mp hp]
        exact hprogDisj
  | interruptProcess =>
      exact disjInv_saveFresh _ ⟨h1, h2, h3, h4, h5, h6⟩
  | fieldError =>
      dsimp only [smartStep]
      split
      · exact ⟨h1, h2, h3, h4, h5, h6⟩
      · exact ⟨h1, h2, h3, h4, h5, h6⟩
  | item f d hc v att =>
      dsimp only [smartStep]
      split
      · exact ⟨h1, h2, h3, h4, h5, h6⟩
      · split
        · split
          · split
            · exact ⟨h1, h2, h3, h4, h5, h6⟩
            · exact ⟨h1, h2, h3, h4, h5, h6⟩
          · exact smartBody_disj _ f hc v att ⟨h1, h2, h3, h4, h5, h6⟩
        · exact smartBody_disj _ f hc v att ⟨h1, h2, h3, h4, h5, h6⟩
        · exact smartBody_disj _ f hc v att ⟨h1, h2, h3, h4, h5, h6⟩

theorem smartLoop_disj (cutoff : Option ℤ) :
    ∀ (evs : List SmartEv) (st : SmartSt), DisjInv st →
      DisjInv (smartLoop cutoff st evs).st := by
  intro evs
  induction evs with
  | nil => intro st hinv; exact smartFinal_disj st hinv
  | cons e rest ih =>
      intro st hinv
      have hstep := smartStep_disj cutoff st e hinv
      simp only [smartLoop]
      cases hres : smartStep cutoff st e with
      | next st2 =>
          rw [hres] at hstep
          exact ih st2 hstep
      | brk st2 =>
          rw [hres] at hstep
          exact smartFinal_disj st2 hstep
      | exit out =>
          rw [hres] at hstep
          exact hstep

/-- Claim C6 counterexample: run 1 fails to download `f.mov` (appending
it to `failed_files`) and then hits an enumerator transport error, whose
handler (src/smart_download.py lines 556-561) saves the progress dict
but NOT the index, so the filename is not remembered as seen; run 2,
resuming from that persisted state, retries `f.mov` successfully.  The
final persisted state then contains `f.mov` in BOTH the downloaded set
and the failed list — failed entries are never removed. -/
theorem c6_retry_success_in_both_sets_cex :
    "f.mov" ∈ (runSmart
        (runSmart emptyProgress [] none
          [SmartEv.item "f.mov" none true false (fun _ => false),
           SmartEv.transportError]).st.persisted
        (runSmart emptyProgress [] none
          [SmartEv.item "f.mov" none true false (fun _ => false),
           SmartEv.transportError]).st.persistedIndex
        none
        [SmartEv.item "f.mov" none true false
          (fun _ => true)]).st.persisted.downloaded_files ∧
    "f.mov" ∈ (runSmart
        (runSmart emptyProgress [] none
          [SmartEv.item "f.mov" none true false (fun _ => false),
           SmartEv.transportError]).st.persisted
        (runSmart emptyProgress [] none
          [SmartEv.item "f.mov" none true false (fun _ => false),
           SmartEv.transportError]).st.persistedIndex
        none
        [SmartEv.item "f.mov" none true false
          (fun _ => true)]).st.persisted.failed_files := by
  refine ⟨?_, ?_⟩ <;> decide

/-- Claim C6 (amended): within any single run starting from the empty
ProgressState, the downloaded set and the failed list stay disjoint in
every persisted snapshot (including the final one); across runs the
guarantee fails, because a filename in the failed list is never removed
when a later run downloads it successfully (see the counterexample). -/
theorem c6_single_run_disjoint (index0 : List String) (cutoff : Option ℤ)
    (evs : List SmartEv) :
    (∀ p ∈ (runSmart emptyProgress index0 cutoff evs).st.saves,
      ∀ f ∈ p.downloaded_files, f ∉ p.failed_files) ∧
    (∀ f ∈ (runSmart emptyProgress index0 cutoff
        evs).st.persisted.downloaded_files,
      f ∉ (runSmart emptyProgress index0 cutoff
        evs).st.persisted.failed_files) := by
  have hinv0 : DisjInv (initSmartSt emptyProgress index0) := by
    refine ⟨?_, ?_, ?_, ?_, ?_, ?_⟩ <;>
      simp [initSmartSt, emptyProgress, DisjProg]
  have hfin := smartLoop_disj cutoff evs _ hinv0
  exact ⟨hfin.2.2.2.2.2, hfin.2.2.2.2.1⟩

/-- Witness for `c6_single_run_disjoint`: after one successful download
the persisted downloaded set contains the filename and the failed list
does not. -/
theorem c6_single_run_disjoint_witness :
    "a.jpg" ∈ (runSmart emptyProgress [] none
        [SmartEv.item "a.jpg" none true false
          (fun _ => true)]).st.persisted.downloaded_files ∧
    "a.jpg" ∉ (runSmart emptyProgress [] none
        [SmartEv.item "a.jpg" none true false
          (fun _ => true)]).st.persisted.failed_files :=
  ⟨by decide,
    (c6_single_run_disjoint [] none
        [SmartEv.item "a.jpg" none true false (fun _ => true)]).2
      "a.jpg" (by decide)⟩

end ICloudBackup
